import Mathlib

/-!
Shallow embedding of the nidhogg taint reconciler.

The repository source (src/unnamed/part_000) contains two historical
versions of the same Go file, separated by a document marker:

- Version A (lines 1-202): taints are encoded as one shared key
  (the constant taintKey) with a per-workload value "namespace/name";
  calculateTaints first collects the keys of all owned taints into a
  map (taintsToRemove), then walks the configured daemonsets, and
  finally sweeps the keys left in the map; HandleNode additionally
  maintains a first-time-ready annotation.
- Version B (lines 203-381): taints are encoded as one distinct key
  per workload, "nidhogg.uswitch.com/namespace.name", with no value;
  calculateTaints adds the taint when the pod is missing or unready
  and removes it when the pod is ready; there is no sweep and no
  annotation bookkeeping.

Suffix A / B on a definition names the version it is translated from.
Definitions without a suffix are shared verbatim by both versions.

Modelling conventions, stated once:
- Go maps string to string are association lists; the node annotation
  map is Option of an association list, where none models a nil Go map
  (reading a nil map yields the zero value, writing to it faults).
- The external pod list call (client.List) is a parameter
  PodEnv : String -> Except Unit (List Pod), namespace to result.
- labels.SelectorFromSet(set).Matches(labels) from k8s apimachinery
  (an external collaborator, not part of this repository) matches
  when every key/value pair of the set is present in the label map;
  in particular an empty set matches every label set. selectorMatches
  implements exactly that.
- Go map iteration order (the sweep loop of version A) is
  unspecified; the model iterates in first-insertion order, which is
  one of the permitted orders. No claim below depends on that order.
- Go errors carry messages; the model uses Except Unit since no claim
  inspects a message. The nil-versus-empty slice normalisation in
  removeTaint is identity on Lean lists.
-/

/-- Go: const taintKey = "nidhogg.uswitch.com" (both versions). -/
def taintKey : String := "nidhogg.uswitch.com"

/-- Go: strings.HasPrefix(s, p): p is a leading substring of s. Defined on
the character list of the string so that proofs can reason by list
induction. -/
def hasPrefixStr (p s : String) : Bool := p.data.isPrefixOf s.data

/-- Go: corev1.TaintEffectNoSchedule, the only effect the code uses. -/
def NoSchedule : String := "NoSchedule"

/-- Go: corev1.Taint restricted to the fields the code reads and writes. -/
structure Taint where
  Key : String
  Value : String
  Effect : String
deriving DecidableEq, Repr

/-- Go: type Daemonset struct { Name, Namespace string }. -/
structure Daemonset where
  Name : String
  Namespace : String
deriving DecidableEq, Repr

/-- Go: metav1.OwnerReference restricted to the Name field the code reads. -/
structure OwnerReference where
  Name : String
deriving DecidableEq, Repr

/-- Go: corev1.ContainerStatus restricted to the Ready field. -/
structure ContainerStatus where
  Ready : Bool
deriving DecidableEq, Repr

/-- Go: corev1.Pod restricted to pod.OwnerReferences, pod.Spec.NodeName and
pod.Status.ContainerStatuses. -/
structure Pod where
  OwnerReferences : List OwnerReference
  NodeName : String
  ContainerStatuses : List ContainerStatus
deriving DecidableEq, Repr

/-- Go: corev1.Node restricted to instance.Name, instance.Labels,
instance.Spec.Taints and instance.Annotations. Annotations is Option to
model a nil Go map as none. -/
structure Node where
  Name : String
  Labels : List (String × String)
  Taints : List Taint
  Annotations : Option (List (String × String))
deriving DecidableEq, Repr

/-- Go: type taintChanges struct { taintsAdded, taintsRemoved []string }. -/
structure taintChanges where
  taintsAdded : List String
  taintsRemoved : List String
deriving DecidableEq, Repr

/-- Go: type HandlerConfig struct { Daemonsets; NodeSelector; NodeRejecter }. -/
structure HandlerConfig where
  Daemonsets : List Daemonset
  NodeSelector : List (String × String)
  NodeRejecter : List (String × String)
deriving DecidableEq, Repr

/-- The external pod list call, namespace to error-or-pod-list. -/
def PodEnv : Type := String → Except Unit (List Pod)

deriving instance DecidableEq for Except

/-- k8s labels.SelectorFromSet(sel).Matches(lbls): every pair of the set
must be present and equal in the label map; the empty set matches all. -/
def selectorMatches (sel : List (String × String)) (lbls : List (String × String)) : Bool :=
  sel.all fun kv => lbls.lookup kv.1 == some kv.2

/-- Reading key k of a possibly-nil Go string map (nil map reads miss). -/
def annGet (m : Option (List (String × String))) (k : String) : Option String :=
  match m with
  | none => none
  | some l => l.lookup k

/-- Go map assignment m[k] = v on a non-nil map: replace or append. -/
def mapInsert (l : List (String × String)) (k v : String) : List (String × String) :=
  if l.any (fun kv => kv.1 == k) then
    l.map (fun kv => if kv.1 == k then (k, v) else kv)
  else
    l ++ [(k, v)]

/-- Go: getDaemonsetPod (identical in both versions): list the pods of the
daemonset namespace, return the first pod owned by ds.Name and bound to
nodeName, nil when no pod matches, error when the list call fails. -/
def getDaemonsetPod (env : PodEnv) (nodeName : String) (ds : Daemonset) :
    Except Unit (Option Pod) :=
  match env ds.Namespace with
  | .error e => .error e
  | .ok pods =>
      .ok (pods.find? fun pod =>
        pod.OwnerReferences.any (fun owner => owner.Name == ds.Name)
          && pod.NodeName == nodeName)

/-- Go version A: podReady, AND over all container ready flags. -/
def podReady (pod : Pod) : Bool :=
  pod.ContainerStatuses.all fun status => status.Ready

/-- Go version B: podNotReady, true when some container is not ready. -/
def podNotReady (pod : Pod) : Bool :=
  pod.ContainerStatuses.any fun status => status.Ready == false

/-- Go: h.nodeSelector.Matches(labelSet) && !h.nodeRejecter.Matches(labelSet)
(identical scope test in both versions of HandleNode). -/
def inScope (conf : HandlerConfig) (node : Node) : Bool :=
  selectorMatches conf.NodeSelector node.Labels
    && !(selectorMatches conf.NodeRejecter node.Labels)

/-- Go HandleNode: var daemonsets []Daemonset; if in scope, the configured
list, otherwise empty. -/
def effectiveDaemonsets (conf : HandlerConfig) (node : Node) : List Daemonset :=
  if inScope conf node then conf.Daemonsets else []

/-- Version A taint identifier: fmt.Sprintf with namespace/name (no prefix). -/
def taintIdA (ds : Daemonset) : String :=
  ds.Namespace ++ "/" ++ ds.Name

/-- Version A addTaint: append a taint with the shared key and the
identifier as value. -/
def addTaintA (taints : List Taint) (taintValue : String) : List Taint :=
  taints ++ [{ Key := taintKey, Value := taintValue, Effect := NoSchedule }]

/-- Version A removeTaint: drop every taint whose key is exactly taintKey
and whose value is taintValue. -/
def removeTaintA (taints : List Taint) (taintValue : String) : List Taint :=
  taints.filter fun taint => !(taint.Key == taintKey && taint.Value == taintValue)

/-- Version A: the taintsToRemove map build, keyed by taint.Key of every
taint whose key carries the owned prefix; insertion-ordered model of the
Go map (duplicates collapse). -/
def collectOwned : List Taint → List String → List String
  | [], acc => acc
  | taint :: rest, acc =>
      if hasPrefixStr taintKey taint.Key && !(acc.contains taint.Key) then
        collectOwned rest (acc ++ [taint.Key])
      else
        collectOwned rest acc

/-- Version A daemonset loop of calculateTaints: per daemonset, resolve the
pod; ready pods leave the map alone; otherwise keep an already-present
identifier (deleting it from the map) or add the taint and record it. -/
def goA (env : PodEnv) (nodeName : String) :
    List Daemonset → List Taint → List String → taintChanges →
    Except Unit (List Taint × List String × taintChanges)
  | [], taints, toRemove, changes => .ok (taints, toRemove, changes)
  | ds :: rest, taints, toRemove, changes =>
      match getDaemonsetPod env nodeName ds with
      | .error _ => .error ()
      | .ok podOpt =>
          if (match podOpt with | some pod => podReady pod | none => false) then
            goA env nodeName rest taints toRemove changes
          else if toRemove.contains (taintIdA ds) then
            goA env nodeName rest taints (toRemove.erase (taintIdA ds)) changes
          else
            goA env nodeName rest (addTaintA taints (taintIdA ds)) toRemove
              ⟨changes.taintsAdded ++ [taintIdA ds], changes.taintsRemoved⟩

/-- Version A final loop of calculateTaints: remove every identifier left
in the map and record it. -/
def sweepA : List String → List Taint → taintChanges → List Taint × taintChanges
  | [], taints, changes => (taints, changes)
  | k :: rest, taints, changes =>
      sweepA rest (removeTaintA taints k)
        ⟨changes.taintsAdded, changes.taintsRemoved ++ [k]⟩

/-- Version A calculateTaints: deep copy, collect owned keys, daemonset
loop, sweep; the returned node is the input with the new taint list. -/
def calculateTaintsA (env : PodEnv) (inst : Node) (daemonsets : List Daemonset) :
    Except Unit (Node × taintChanges) :=
  match goA env inst.Name daemonsets inst.Taints (collectOwned inst.Taints []) ⟨[], []⟩ with
  | .error e => .error e
  | .ok (taints, toRemove, changes) =>
      let swept := sweepA toRemove taints changes
      .ok ({ inst with Taints := swept.1 }, swept.2)

/-- Version A: the annotation key taintKey + "/first-time-ready". -/
def firstTimeReadyKey : String := taintKey ++ "/first-time-ready"

/-- Version A HandleNode: taintLess is true when no taint key carries the
owned prefix. -/
def taintLess (node : Node) : Bool :=
  !(node.Taints.any fun taint => hasPrefixStr taintKey taint.Key)

/-- Outcome of one HandleNode invocation. ok carries the node value the
pass converged on, whether the Update call was made (reflect.DeepEqual
found a difference), and the change record. errCalc models the early
return on a calculateTaints error: no Update is attempted and the
persisted node state stays the input. nilMapFault models the Go runtime
fault of writing the first-time-ready annotation into a nil map. -/
inductive HandleOutcome where
  | ok (node : Node) (updated : Bool) (changes : taintChanges)
  | errCalc
  | nilMapFault
deriving DecidableEq, Repr

/-- Version A HandleNode tail: the reflect.DeepEqual guard before Update. -/
def finishA (inst nodeCopy : Node) (changes : taintChanges) : HandleOutcome :=
  if nodeCopy = inst then .ok inst false changes else .ok nodeCopy true changes

/-- Version A HandleNode: scope test, calculateTaints, first-time-ready
annotation stamping (a write into a nil annotation map faults), DeepEqual
guard, Update. now stands for time.Now().Format(...). -/
def HandleNodeA (env : PodEnv) (now : String) (conf : HandlerConfig) (inst : Node) :
    HandleOutcome :=
  match calculateTaintsA env inst (effectiveDaemonsets conf inst) with
  | .error _ => .errCalc
  | .ok (nodeCopy, changes) =>
      if (annGet nodeCopy.Annotations firstTimeReadyKey).isNone && taintLess nodeCopy then
        match nodeCopy.Annotations with
        | none => .nilMapFault
        | some l =>
            finishA inst
              { nodeCopy with Annotations := some (mapInsert l firstTimeReadyKey now) }
              changes
      else
        finishA inst nodeCopy changes

/-- Version B taint identifier: fmt.Sprintf with taintKey/namespace.name. -/
def taintIdB (ds : Daemonset) : String :=
  taintKey ++ ("/" ++ ds.Namespace ++ "." ++ ds.Name)

/-- Version B taintPresent: some taint on the list has exactly this key. -/
def taintPresent (taints : List Taint) (taintName : String) : Bool :=
  taints.any fun taint => taint.Key == taintName

/-- Version B addTaint: append a taint with the identifier as key and no
value. -/
def addTaintB (taints : List Taint) (taintName : String) : List Taint :=
  taints ++ [{ Key := taintName, Value := "", Effect := NoSchedule }]

/-- Version B removeTaint: drop every taint whose key is taintName. -/
def removeTaintB (taints : List Taint) (taintName : String) : List Taint :=
  taints.filter fun taint => !(taint.Key == taintName)

/-- Version B daemonset loop of calculateTaints: missing or unready pod
adds the taint when absent; a ready pod removes it when present. -/
def goB (env : PodEnv) (nodeName : String) :
    List Daemonset → List Taint → taintChanges →
    Except Unit (List Taint × taintChanges)
  | [], taints, changes => .ok (taints, changes)
  | ds :: rest, taints, changes =>
      match getDaemonsetPod env nodeName ds with
      | .error _ => .error ()
      | .ok podOpt =>
          if (match podOpt with | some pod => podNotReady pod | none => true) then
            if taintPresent taints (taintIdB ds) then
              goB env nodeName rest taints changes
            else
              goB env nodeName rest (addTaintB taints (taintIdB ds))
                ⟨changes.taintsAdded ++ [taintIdB ds], changes.taintsRemoved⟩
          else
            if taintPresent taints (taintIdB ds) then
              goB env nodeName rest (removeTaintB taints (taintIdB ds))
                ⟨changes.taintsAdded, changes.taintsRemoved ++ [taintIdB ds]⟩
            else
              goB env nodeName rest taints changes

/-- Version B calculateTaints: deep copy plus the daemonset loop; the
returned node is the input with the new taint list. -/
def calculateTaintsB (env : PodEnv) (inst : Node) (daemonsets : List Daemonset) :
    Except Unit (Node × taintChanges) :=
  match goB env inst.Name daemonsets inst.Taints ⟨[], []⟩ with
  | .error e => .error e
  | .ok (taints, changes) => .ok ({ inst with Taints := taints }, changes)

/-- A taint the reconciler does not own: its key does not carry the owned
prefix. -/
def foreignTaint (taint : Taint) : Bool :=
  !(hasPrefixStr taintKey taint.Key)

/-- Concrete environment with no pods anywhere. -/
def envNoPods : PodEnv := fun _ => .ok []

/-- Concrete environment whose list call always fails. -/
def envListFails : PodEnv := fun _ => .error ()

/-- The fluentd daemonset of Scenario A of the specification. -/
def dsFluentd : Daemonset := { Name := "fluentd", Namespace := "kube-system" }

/-- A ready fluentd pod bound to node node1. -/
def podFluentdReady : Pod :=
  { OwnerReferences := [{ Name := "fluentd" }]
  , NodeName := "node1"
  , ContainerStatuses := [{ Ready := true }] }

/-- Concrete environment where the ready fluentd pod is the only pod. -/
def envFluentdReady : PodEnv := fun _ => .ok [podFluentdReady]

/-- The version A owned taint for the fluentd daemonset. -/
def taintFluentdA : Taint :=
  { Key := "nidhogg.uswitch.com", Value := "kube-system/fluentd", Effect := "NoSchedule" }

/-- A node with no taints, empty labels and a non-nil empty annotation map. -/
def node0 : Node := { Name := "node1", Labels := [], Taints := [], Annotations := some [] }

/-- The node version A produces from node0 after one pass with the fluentd
daemonset unready. -/
def node1 : Node :=
  { Name := "node1", Labels := [], Taints := [taintFluentdA], Annotations := some [] }

/-! Helper lemmas shared by several claims. -/

theorem isPrefixOf_append_chars (l r : List Char) : l.isPrefixOf (l ++ r) = true := by
  induction l with
  | nil => simp [List.isPrefixOf]
  | cons a as ih => simp [List.isPrefixOf, ih]

theorem isPrefixOf_refl_chars (l : List Char) : l.isPrefixOf l = true := by
  induction l with
  | nil => simp [List.isPrefixOf]
  | cons a as ih => simp [List.isPrefixOf, ih]

theorem hasPrefixStr_append (s t : String) : hasPrefixStr s (s ++ t) = true := by
  unfold hasPrefixStr
  rw [String.data_append]
  exact isPrefixOf_append_chars s.data t.data

theorem hasPrefixStr_refl (s : String) : hasPrefixStr s s = true :=
  isPrefixOf_refl_chars s.data

theorem key_ne_taintKey_of_foreign {t : Taint} (h : foreignTaint t = true) :
    t.Key ≠ taintKey := by
  intro hk
  unfold foreignTaint at h
  rw [hk, hasPrefixStr_refl] at h
  simp at h

theorem key_ne_of_foreign {t : Taint} {k : String} (h : foreignTaint t = true)
    (hk : hasPrefixStr taintKey k = true) : t.Key ≠ k := by
  intro hkey
  unfold foreignTaint at h
  rw [hkey, hk] at h
  simp at h

theorem filter_filter_of_imp {α : Type} (p q : α → Bool) (l : List α)
    (h : ∀ a, p a = true → q a = true) :
    (l.filter q).filter p = l.filter p := by
  induction l with
  | nil => rfl
  | cons a l ih =>
      by_cases hq : q a = true
      · by_cases hp : p a = true
        · simp [List.filter_cons, hq, hp, ih]
        · rw [Bool.not_eq_true] at hp
          simp [List.filter_cons, hq, hp, ih]
      · rw [Bool.not_eq_true] at hq
        have hp : p a = false := by
          cases hpa : p a
          · rfl
          · rw [h a hpa] at hq; cases hq
        simp [List.filter_cons, hq, hp, ih]

theorem filter_foreign_addTaintA (ts : List Taint) (v : String) :
    (addTaintA ts v).filter foreignTaint = ts.filter foreignTaint := by
  unfold addTaintA
  rw [List.filter_append]
  have h : foreignTaint { Key := taintKey, Value := v, Effect := NoSchedule } = false := by
    unfold foreignTaint
    rw [hasPrefixStr_refl]
    rfl
  simp [List.filter_cons, h]

theorem filter_foreign_removeTaintA (ts : List Taint) (v : String) :
    (removeTaintA ts v).filter foreignTaint = ts.filter foreignTaint := by
  unfold removeTaintA
  apply filter_filter_of_imp
  intro t ht
  have hne : t.Key ≠ taintKey := key_ne_taintKey_of_foreign ht
  have hb : (t.Key == taintKey) = false := by
    cases hbb : t.Key == taintKey
    · rfl
    · exact absurd (by simpa using hbb) hne
  simp [hb]

theorem filter_foreign_addTaintB (ts : List Taint) (k : String)
    (hk : hasPrefixStr taintKey k = true) :
    (addTaintB ts k).filter foreignTaint = ts.filter foreignTaint := by
  unfold addTaintB
  rw [List.filter_append]
  have h : foreignTaint { Key := k, Value := "", Effect := NoSchedule } = false := by
    unfold foreignTaint
    rw [hk]
    rfl
  simp [List.filter_cons, h]

theorem filter_foreign_removeTaintB (ts : List Taint) (k : String)
    (hk : hasPrefixStr taintKey k = true) :
    (removeTaintB ts k).filter foreignTaint = ts.filter foreignTaint := by
  unfold removeTaintB
  apply filter_filter_of_imp
  intro t ht
  have hne : t.Key ≠ k := key_ne_of_foreign ht hk
  have hb : (t.Key == k) = false := by
    cases hbb : t.Key == k
    · rfl
    · exact absurd (by simpa using hbb) hne
  simp [hb]

theorem goA_filter_foreign (env : PodEnv) (nm : String) :
    ∀ (dss : List Daemonset) (ts : List Taint) (rem : List String) (ch : taintChanges)
      (ts2 : List Taint) (rem2 : List String) (ch2 : taintChanges),
      goA env nm dss ts rem ch = .ok (ts2, rem2, ch2) →
      ts2.filter foreignTaint = ts.filter foreignTaint := by
  intro dss
  induction dss with
  | nil =>
      intro ts rem ch ts2 rem2 ch2 h
      simp only [goA, Except.ok.injEq, Prod.mk.injEq] at h
      obtain ⟨h1, _, _⟩ := h
      rw [h1]
  | cons ds rest ih =>
      intro ts rem ch ts2 rem2 ch2 h
      simp only [goA] at h
      cases hg : getDaemonsetPod env nm ds with
      | error e => rw [hg] at h; simp at h
      | ok podOpt =>
          rw [hg] at h
          simp only [] at h
          split at h
          · exact ih ts rem ch ts2 rem2 ch2 h
          · split at h
            · exact ih ts _ ch ts2 rem2 ch2 h
            · rw [ih _ _ _ ts2 rem2 ch2 h]
              exact filter_foreign_addTaintA ts (taintIdA ds)

theorem sweepA_filter_foreign :
    ∀ (keys : List String) (ts : List Taint) (ch : taintChanges),
      (sweepA keys ts ch).1.filter foreignTaint = ts.filter foreignTaint := by
  intro keys
  induction keys with
  | nil => intro ts ch; rfl
  | cons k rest ih =>
      intro ts ch
      unfold sweepA
      rw [ih]
      exact filter_foreign_removeTaintA ts k

theorem calculateTaintsA_ok_shape {env : PodEnv} {inst : Node} {dss : List Daemonset}
    {out : Node} {ch : taintChanges}
    (h : calculateTaintsA env inst dss = .ok (out, ch)) :
    ∃ ts2 rem2 ch2,
      goA env inst.Name dss inst.Taints (collectOwned inst.Taints []) ⟨[], []⟩
        = .ok (ts2, rem2, ch2) ∧
      out = { inst with Taints := (sweepA rem2 ts2 ch2).1 } ∧
      ch = (sweepA rem2 ts2 ch2).2 := by
  unfold calculateTaintsA at h
  cases hg : goA env inst.Name dss inst.Taints (collectOwned inst.Taints []) ⟨[], []⟩ with
  | error e => rw [hg] at h; simp at h
  | ok triple =>
      rw [hg] at h
      obtain ⟨ts2, rem2, ch2⟩ := triple
      simp only [Except.ok.injEq, Prod.mk.injEq] at h
      exact ⟨ts2, rem2, ch2, rfl, h.1.symm, h.2.symm⟩

theorem calculateTaintsA_filter_foreign {env : PodEnv} {inst : Node} {dss : List Daemonset}
    {out : Node} {ch : taintChanges}
    (h : calculateTaintsA env inst dss = .ok (out, ch)) :
    out.Taints.filter foreignTaint = inst.Taints.filter foreignTaint := by
  obtain ⟨ts2, rem2, ch2, hg, hout, _⟩ := calculateTaintsA_ok_shape h
  rw [hout]
  show (sweepA rem2 ts2 ch2).1.filter foreignTaint = inst.Taints.filter foreignTaint
  rw [sweepA_filter_foreign]
  exact goA_filter_foreign env inst.Name dss inst.Taints _ _ ts2 rem2 ch2 hg

theorem calculateTaintsA_ann {env : PodEnv} {inst : Node} {dss : List Daemonset}
    {out : Node} {ch : taintChanges}
    (h : calculateTaintsA env inst dss = .ok (out, ch)) :
    out.Annotations = inst.Annotations := by
  obtain ⟨ts2, rem2, ch2, _, hout, _⟩ := calculateTaintsA_ok_shape h
  rw [hout]

theorem taintIdB_has_owned_key (ds : Daemonset) :
    hasPrefixStr taintKey (taintIdB ds) = true := by
  unfold taintIdB
  exact hasPrefixStr_append taintKey ("/" ++ ds.Namespace ++ "." ++ ds.Name)

theorem goB_filter_foreign (env : PodEnv) (nm : String) :
    ∀ (dss : List Daemonset) (ts : List Taint) (ch : taintChanges)
      (ts2 : List Taint) (ch2 : taintChanges),
      goB env nm dss ts ch = .ok (ts2, ch2) →
      ts2.filter foreignTaint = ts.filter foreignTaint := by
  intro dss
  induction dss with
  | nil =>
      intro ts ch ts2 ch2 h
      simp only [goB, Except.ok.injEq, Prod.mk.injEq] at h
      obtain ⟨h1, _⟩ := h
      rw [h1]
  | cons ds rest ih =>
      intro ts ch ts2 ch2 h
      simp only [goB] at h
      cases hg : getDaemonsetPod env nm ds with
      | error e => rw [hg] at h; simp at h
      | ok podOpt =>
          rw [hg] at h
          simp only [] at h
          split at h
          · split at h
            · exact ih ts ch ts2 ch2 h
            · rw [ih _ _ ts2 ch2 h]
              exact filter_foreign_addTaintB ts (taintIdB ds) (taintIdB_has_owned_key ds)
          · split at h
            · rw [ih _ _ ts2 ch2 h]
              exact filter_foreign_removeTaintB ts (taintIdB ds) (taintIdB_has_owned_key ds)
            · exact ih ts ch ts2 ch2 h

theorem calculateTaintsB_filter_foreign {env : PodEnv} {inst : Node} {dss : List Daemonset}
    {out : Node} {ch : taintChanges}
    (h : calculateTaintsB env inst dss = .ok (out, ch)) :
    out.Taints.filter foreignTaint = inst.Taints.filter foreignTaint := by
  unfold calculateTaintsB at h
  cases hg : goB env inst.Name dss inst.Taints ⟨[], []⟩ with
  | error e => rw [hg] at h; simp at h
  | ok pr =>
      rw [hg] at h
      obtain ⟨ts2, ch2⟩ := pr
      simp only [Except.ok.injEq, Prod.mk.injEq] at h
      obtain ⟨hout, _⟩ := h
      rw [← hout]
      show ts2.filter foreignTaint = inst.Taints.filter foreignTaint
      exact goB_filter_foreign env inst.Name dss inst.Taints _ ts2 ch2 hg

theorem goA_error_of_env_error (env : PodEnv) (nm : String) :
    ∀ (dss : List Daemonset) (ts : List Taint) (rem : List String) (ch : taintChanges),
      (∃ ds, ds ∈ dss ∧ env ds.Namespace = .error ()) →
      goA env nm dss ts rem ch = .error () := by
  intro dss
  induction dss with
  | nil =>
      intro ts rem ch h
      obtain ⟨ds, hmem, _⟩ := h
      cases hmem
  | cons d rest ih =>
      intro ts rem ch h
      obtain ⟨ds, hmem, herr⟩ := h
      cases hmem with
      | head =>
          have hg : getDaemonsetPod env nm d = .error () := by
            unfold getDaemonsetPod
            rw [herr]
      
          simp [goA, hg]
      | tail _ hmem2 =>
          cases hg : getDaemonsetPod env nm d with
          | error e =>
              cases e
              simp [goA, hg]
          | ok podOpt =>
              simp only [goA, hg]
              split
              · exact ih ts rem ch ⟨ds, hmem2, herr⟩
              · split
                · exact ih ts _ ch ⟨ds, hmem2, herr⟩
                · exact ih _ rem _ ⟨ds, hmem2, herr⟩

theorem calculateTaintsA_error_of_env_error {env : PodEnv} {inst : Node} {dss : List Daemonset}
    (h : ∃ ds, ds ∈ dss ∧ env ds.Namespace = .error ()) :
    calculateTaintsA env inst dss = .error () := by
  unfold calculateTaintsA
  rw [goA_error_of_env_error env inst.Name dss _ _ _ h]

theorem finishA_ne_fault (inst nodeCopy : Node) (ch : taintChanges) :
    finishA inst nodeCopy ch ≠ .nilMapFault := by
  unfold finishA
  split <;> simp

theorem collectOwned_prefixed :
    ∀ (ts : List Taint) (acc : List String),
      (∀ k ∈ acc, hasPrefixStr taintKey k = true) →
      ∀ k ∈ collectOwned ts acc, hasPrefixStr taintKey k = true := by
  intro ts
  induction ts with
  | nil => intro acc hacc k hk; exact hacc k hk
  | cons t rest ih =>
      intro acc hacc k hk
      unfold collectOwned at hk
      by_cases hc : (hasPrefixStr taintKey t.Key && !(acc.contains t.Key)) = true
      · rw [if_pos hc] at hk
        refine ih _ ?_ k hk
        intro k2 hk2
        rcases List.mem_append.mp hk2 with hmem | hmem
        · exact hacc k2 hmem
        · have hk2eq : k2 = t.Key := by simpa using hmem
          rw [hk2eq]
          exact ((Bool.and_eq_true _ _).mp hc).1
      · rw [if_neg hc] at hk
        exact ih acc hacc k hk

theorem removeTaintA_no_match (ts : List Taint) (k : String)
    (hk : hasPrefixStr taintKey k = true)
    (hts : ∀ t ∈ ts, t.Key = taintKey → hasPrefixStr taintKey t.Value = false) :
    removeTaintA ts k = ts := by
  unfold removeTaintA
  rw [List.filter_eq_self]
  intro t ht
  by_cases hkey : t.Key = taintKey
  · have hv := hts t ht hkey
    have hvk : t.Value ≠ k := by
      intro hv2
      rw [hv2, hk] at hv
      cases hv
    have hb : (t.Value == k) = false := by
      cases hbb : t.Value == k
      · rfl
      · exact absurd (by simpa using hbb) hvk
    simp [hb]
  · have hb : (t.Key == taintKey) = false := by
      cases hbb : t.Key == taintKey
      · rfl
      · exact absurd (by simpa using hbb) hkey
    simp [hb]

theorem sweepA_keeps (keys : List String) :
    ∀ (ts : List Taint) (ch : taintChanges),
      (∀ k ∈ keys, hasPrefixStr taintKey k = true) →
      (∀ t ∈ ts, t.Key = taintKey → hasPrefixStr taintKey t.Value = false) →
      (sweepA keys ts ch).1 = ts := by
  induction keys with
  | nil => intro ts ch _ _; rfl
  | cons k rest ih =>
      intro ts ch hkeys hts
      unfold sweepA
      rw [removeTaintA_no_match ts k (hkeys k (by simp)) hts]
      exact ih ts _ (fun k2 hmem => hkeys k2 (by simp [hmem])) hts

/-! Claim theorems. -/

/-- C1: the claim states that reconciliation (calculateTaints) is
idempotent: a second pass with the same policy and the same pod facts
returns the node unchanged and an empty change record. Version A of
calculateTaints violates this: starting from a node with no taints and
one unready daemonset, the first pass adds the owned taint, and the
second pass adds a duplicate of it (the taintsToRemove lookup uses the
namespace/name identifier while the map is keyed by the taint key) and
records a removal that removed nothing. This theorem evaluates version A
at that failing input: the second pass changes the node and returns a
non-empty change record. -/
theorem calculateTaintsA_second_pass_changes :
    calculateTaintsA envNoPods node0 [dsFluentd]
      = .ok (node1, ⟨["kube-system/fluentd"], []⟩) ∧
    calculateTaintsA envNoPods node1 [dsFluentd]
      = .ok (⟨"node1", [], [taintFluentdA, taintFluentdA], some []⟩,
          ⟨["kube-system/fluentd"], ["nidhogg.uswitch.com"]⟩) ∧
    (⟨"node1", [], [taintFluentdA, taintFluentdA], some []⟩ : Node) ≠ node1 ∧
    (⟨["kube-system/fluentd"], ["nidhogg.uswitch.com"]⟩ : taintChanges) ≠ ⟨[], []⟩ := by
  decide

/-- C2: the claim states that a pass never produces two owned taints for
the same workload and preserves that invariant. Version A violates it:
from a node that carries exactly one owned taint for the fluentd
workload (and satisfies the invariant), one pass with fluentd unready
returns a node carrying two identical owned taints for it. -/
theorem calculateTaintsA_duplicates_owned_taint :
    (node1.Taints.countP fun t =>
      t.Key == "nidhogg.uswitch.com" && t.Value == "kube-system/fluentd") = 1 ∧
    calculateTaintsA envNoPods node1 [dsFluentd]
      = .ok (⟨"node1", [], [taintFluentdA, taintFluentdA], some []⟩,
          ⟨["kube-system/fluentd"], ["nidhogg.uswitch.com"]⟩) ∧
    ((⟨"node1", [], [taintFluentdA, taintFluentdA], some []⟩ : Node).Taints.countP fun t =>
      t.Key == "nidhogg.uswitch.com" && t.Value == "kube-system/fluentd") = 2 := by
  decide

/-- C3: the claim states that a ready pod always leaves the node without
the owned taint of its workload after reconciliation. Version A violates
the ready direction: on a node carrying the fluentd owned taint, with a
fluentd pod present and all containers ready, the pass returns the node
with the taint still present (the sweep passes the collected taint key
to removeTaint, which compares it against taint values), while recording
a removal in the change record. -/
theorem calculateTaintsA_keeps_taint_of_ready_pod :
    getDaemonsetPod envFluentdReady "node1" dsFluentd = .ok (some podFluentdReady) ∧
    podReady podFluentdReady = true ∧
    calculateTaintsA envFluentdReady node1 [dsFluentd]
      = .ok (node1, ⟨[], ["nidhogg.uswitch.com"]⟩) ∧
    node1.Taints = [taintFluentdA] := by
  decide

/-- C4: the claim states that an owned taint whose workload is absent
from the policy is removed by one in-scope pass. Neither version does
this. Version A: a node carrying the owned taint with value old/stale,
reconciled against a policy containing only fluentd, keeps the stale
taint (the sweep removes taints whose value equals a collected key,
which never holds for real taints) while recording a phantom removal.
Version B: a node carrying the stale per-workload key keeps it
untouched, since version B has no sweep at all. -/
theorem stale_taint_not_removed :
    calculateTaintsA envNoPods
      ⟨"node1", [], [⟨"nidhogg.uswitch.com", "old/stale", "NoSchedule"⟩], some []⟩
      [dsFluentd]
      = .ok (⟨"node1", [],
          [⟨"nidhogg.uswitch.com", "old/stale", "NoSchedule"⟩, taintFluentdA], some []⟩,
          ⟨["kube-system/fluentd"], ["nidhogg.uswitch.com"]⟩) ∧
    calculateTaintsB envNoPods
      ⟨"node1", [], [⟨"nidhogg.uswitch.com/old.stale", "", "NoSchedule"⟩], some []⟩
      [dsFluentd]
      = .ok (⟨"node1", [],
          [⟨"nidhogg.uswitch.com/old.stale", "", "NoSchedule"⟩,
           ⟨"nidhogg.uswitch.com/kube-system.fluentd", "", "NoSchedule"⟩], some []⟩,
          ⟨["nidhogg.uswitch.com/kube-system.fluentd"], []⟩) := by
  decide

/-- C8: the claim states that the change record lists exactly the taints
actually added to and actually removed from the node. Version A violates
it: in the duplicate-adding pass on node1, the record names
nidhogg.uswitch.com as removed although every input taint is still in
the output (the taint list only grew), and names kube-system/fluentd as
added although a taint for that workload was already present in the
input. -/
theorem change_record_phantom_removal :
    calculateTaintsA envNoPods node1 [dsFluentd]
      = .ok (⟨"node1", [], [taintFluentdA, taintFluentdA], some []⟩,
          ⟨["kube-system/fluentd"], ["nidhogg.uswitch.com"]⟩) ∧
    "nidhogg.uswitch.com" ∈ (["nidhogg.uswitch.com"] : List String) ∧
    (∀ t ∈ node1.Taints, t ∈ (⟨"node1", [], [taintFluentdA, taintFluentdA], some []⟩ : Node).Taints) ∧
    taintFluentdA ∈ node1.Taints := by
  decide

/-- C5: the claim states that a pass over an out-of-scope node returns
the taint list exactly as it was. Counterexample: an out-of-scope node
(its labels fail the include selector) carrying the owned taint whose
value is itself the owned key has that taint removed by version A: the
sweep runs even out of scope, every owned key stays in the map, and
removeTaint deletes any taint whose value equals a collected key. -/
theorem out_of_scope_taint_removed_cex :
    inScope ⟨[dsFluentd], [("role", "worker")], []⟩
      ⟨"node1", [],
        [⟨"nidhogg.uswitch.com", "nidhogg.uswitch.com", "NoSchedule"⟩], some []⟩ = false ∧
    calculateTaintsA envNoPods
      ⟨"node1", [],
        [⟨"nidhogg.uswitch.com", "nidhogg.uswitch.com", "NoSchedule"⟩], some []⟩
      (effectiveDaemonsets ⟨[dsFluentd], [("role", "worker")], []⟩
        ⟨"node1", [],
          [⟨"nidhogg.uswitch.com", "nidhogg.uswitch.com", "NoSchedule"⟩], some []⟩)
      = .ok (⟨"node1", [], [], some []⟩, ⟨[], ["nidhogg.uswitch.com"]⟩) := by
  decide

/-- C5 amended: a pass of version A over an out-of-scope node returns
the node (and in particular its taint list) exactly as it was, provided
no owned taint on the node combines the exact key nidhogg.uswitch.com
with a value that itself begins with that prefix; the change record may
still report phantom removals. The counterexample above forces the
proviso: the sweep of version A removes a taint exactly when its key is
the shared owned key and its value equals the key of some owned taint
on the node. -/
theorem out_of_scope_frame_amended (env : PodEnv) (conf : HandlerConfig) (inst : Node)
    (h1 : inScope conf inst = false)
    (h2 : ∀ t ∈ inst.Taints, t.Key = taintKey → hasPrefixStr taintKey t.Value = false) :
    ∃ ch, calculateTaintsA env inst (effectiveDaemonsets conf inst) = .ok (inst, ch) := by
  have hd : effectiveDaemonsets conf inst = [] := by
    unfold effectiveDaemonsets
    rw [h1]
    rfl
  rw [hd]
  refine ⟨(sweepA (collectOwned inst.Taints []) inst.Taints ⟨[], []⟩).2, ?_⟩
  unfold calculateTaintsA
  simp only [goA]
  have hkeys : ∀ k ∈ collectOwned inst.Taints [], hasPrefixStr taintKey k = true :=
    collectOwned_prefixed inst.Taints [] (by intro k hk; cases hk)
  have hsweep := sweepA_keeps (collectOwned inst.Taints []) inst.Taints ⟨[], []⟩ hkeys h2
  rw [hsweep]

/-- C5 witness: the amended statement applied to a concrete out-of-scope
node carrying the ordinary owned fluentd taint, which one pass keeps
unchanged. -/
theorem out_of_scope_frame_amended_witness :
    ∃ ch, calculateTaintsA envNoPods
      ⟨"node1", [], [taintFluentdA], some []⟩
      (effectiveDaemonsets ⟨[dsFluentd], [("role", "worker")], []⟩
        ⟨"node1", [], [taintFluentdA], some []⟩)
      = .ok (⟨"node1", [], [taintFluentdA], some []⟩, ch) :=
  out_of_scope_frame_amended envNoPods ⟨[dsFluentd], [("role", "worker")], []⟩
    ⟨"node1", [], [taintFluentdA], some []⟩ (by decide) (by decide)

/-- C6: in both versions, taints whose key does not carry the owned
prefix are never added, removed or reordered by a successful
calculateTaints pass: the subsequence of non-owned taints of the output
equals that of the input, in order. -/
theorem foreign_taints_preserved :
    (∀ (env : PodEnv) (inst : Node) (dss : List Daemonset) (out : Node) (ch : taintChanges),
      calculateTaintsA env inst dss = .ok (out, ch) →
      out.Taints.filter foreignTaint = inst.Taints.filter foreignTaint) ∧
    (∀ (env : PodEnv) (inst : Node) (dss : List Daemonset) (out : Node) (ch : taintChanges),
      calculateTaintsB env inst dss = .ok (out, ch) →
      out.Taints.filter foreignTaint = inst.Taints.filter foreignTaint) :=
  ⟨fun _ _ _ _ _ h => calculateTaintsA_filter_foreign h,
   fun _ _ _ _ _ h => calculateTaintsB_filter_foreign h⟩

/-- C6 witness: the version A half applied to the concrete first pass
that adds the fluentd taint to a node carrying one foreign taint, which
the pass leaves in place. -/
theorem foreign_taints_preserved_witness :
    (⟨"node1", [], [⟨"other.example.com", "", "NoSchedule"⟩, taintFluentdA], some []⟩ : Node).Taints.filter foreignTaint
      = (⟨"node1", [], [⟨"other.example.com", "", "NoSchedule"⟩], some []⟩ : Node).Taints.filter foreignTaint :=
  foreign_taints_preserved.1 envNoPods
    ⟨"node1", [], [⟨"other.example.com", "", "NoSchedule"⟩], some []⟩ [dsFluentd]
    ⟨"node1", [], [⟨"other.example.com", "", "NoSchedule"⟩, taintFluentdA], some []⟩
    ⟨["kube-system/fluentd"], []⟩ (by decide)

/-- C7: if the pod list call fails for some workload of the policy on an
in-scope node, the whole HandleNode pass of version A returns the error
outcome: calculateTaints propagates the failure, HandleNode returns
before the Update call, and no taint change is applied or persisted. -/
theorem list_error_aborts_pass (env : PodEnv) (now : String) (conf : HandlerConfig)
    (inst : Node) (h1 : inScope conf inst = true)
    (h2 : ∃ ds, ds ∈ conf.Daemonsets ∧ env ds.Namespace = .error ()) :
    HandleNodeA env now conf inst = .errCalc := by
  unfold HandleNodeA
  have hd : effectiveDaemonsets conf inst = conf.Daemonsets := by
    unfold effectiveDaemonsets
    rw [h1]
    rfl
  rw [hd, calculateTaintsA_error_of_env_error h2]

/-- C7 witness: a failing pod list on the fluentd namespace aborts the
pass for a concrete in-scope node. -/
theorem list_error_aborts_pass_witness :
    HandleNodeA envListFails "t0" ⟨[dsFluentd], [], [("x", "y")]⟩ node0 = .errCalc :=
  list_error_aborts_pass envListFails "t0" ⟨[dsFluentd], [], [("x", "y")]⟩ node0
    (by decide) ⟨dsFluentd, by decide, rfl⟩

/-- C9: counterexample to Scenario A as stated. With the exact inputs of
the claim (policy with only kube-system/fluentd, node labels role:worker,
include selector role:worker, empty exclude selector, no fluentd pod),
the empty exclude selector matches every label set, so the node is out
of scope, and version A HandleNode returns the node with no taint at
all and an empty change record (it only stamps the first-time-ready
annotation), contradicting the claimed owned taint and non-empty added
list. -/
theorem scenario_a_empty_exclude_cex :
    inScope ⟨[dsFluentd], [("role", "worker")], []⟩
      ⟨"node1", [("role", "worker")], [], some []⟩ = false ∧
    HandleNodeA envNoPods "t0" ⟨[dsFluentd], [("role", "worker")], []⟩
      ⟨"node1", [("role", "worker")], [], some []⟩
      = .ok ⟨"node1", [("role", "worker")], [],
          some [("nidhogg.uswitch.com/first-time-ready", "t0")]⟩ true ⟨[], []⟩ := by
  decide

/-- C9 amended: Scenario A holds once the exclude selector is any
selector that does not match the node, for example role:master (an empty
exclude selector matches every node and takes it out of scope): with no
fluentd pod, HandleNode returns the node carrying the owned fluentd
taint and the change record with exactly its identifier added and
nothing removed. -/
theorem scenario_a_amended :
    HandleNodeA envNoPods "t0" ⟨[dsFluentd], [("role", "worker")], [("role", "master")]⟩
      ⟨"node1", [("role", "worker")], [], some []⟩
      = .ok ⟨"node1", [("role", "worker")], [taintFluentdA], some []⟩ true
          ⟨["kube-system/fluentd"], []⟩ := by
  decide

/-- C10: first conjunct: a concrete in-scope node whose annotation map is
nil and which carries no owned taint after taint calculation drives
version A HandleNode into the nil-map write of the first-time-ready
annotation, modelled as the nilMapFault outcome, so HandleNode is not
total. Second conjunct: the fault cannot occur when the node has a
non-nil annotation map or some owned taint remains after the
calculateTaints pass, the claimed totality precondition. -/
theorem handleNodeA_nil_annotations_fault :
    (HandleNodeA envNoPods "t0" ⟨[], [], [("x", "y")]⟩ ⟨"n", [], [], none⟩
      = .nilMapFault) ∧
    (∀ (env : PodEnv) (now : String) (conf : HandlerConfig) (inst : Node),
      (inst.Annotations ≠ none ∨
        (∀ out ch, calculateTaintsA env inst (effectiveDaemonsets conf inst) = .ok (out, ch) →
          out.Taints.any (fun t => hasPrefixStr taintKey t.Key) = true)) →
      HandleNodeA env now conf inst ≠ .nilMapFault) := by
  constructor
  · decide
  · intro env now conf inst hpre hfault
    unfold HandleNodeA at hfault
    cases hc : calculateTaintsA env inst (effectiveDaemonsets conf inst) with
    | error e => rw [hc] at hfault; simp at hfault
    | ok pr =>
        obtain ⟨out, ch⟩ := pr
        rw [hc] at hfault
        simp only [] at hfault
        split at hfault
        · rename_i hcond
          cases hao : out.Annotations with
          | none =>
              cases hpre with
              | inl hann =>
                  have h2 := calculateTaintsA_ann hc
                  rw [hao] at h2
                  exact hann h2.symm
              | inr howned =>
                  have hany := howned out ch hc
                  unfold taintLess at hcond
                  rw [hany] at hcond
                  simp at hcond
          | some l =>
              rw [hao] at hfault
              exact finishA_ne_fault inst _ ch hfault
        · exact finishA_ne_fault inst out ch hfault

/-- C10 witness: the totality conjunct applied to the same concrete input
with a non-nil (empty) annotation map, discharging the precondition with
its left disjunct. -/
theorem handleNodeA_nil_annotations_fault_witness :
    HandleNodeA envNoPods "t0" ⟨[], [], [("x", "y")]⟩ ⟨"n", [], [], some []⟩
      ≠ .nilMapFault :=
  handleNodeA_nil_annotations_fault.2 envNoPods "t0" ⟨[], [], [("x", "y")]⟩
    ⟨"n", [], [], some []⟩ (Or.inl (by decide))
